import Mathlib

/-!
# Verification of the ToDoList task model (src/ToDoList.py)

Shallow embedding of the `Task` / `TaskStore` model of the repository.

Python objects are mutable and compared by reference identity, so the task
store is embedded as a heap: a `TaskStore` holds a list of references
(`tasks`, the storage order) and a heap assigning a `Task` value to every
reference.  Mutating a task's `index` field through the list corresponds to
updating the heap at that reference.  Machine integers do not overflow here
(Python ints are unbounded), so `priority`, `status` and `index` are `Int`.
-/

namespace ToDo

/-- `Task` (ToDoList.py, lines 12-24).  `name` is `Option String` because a
Python caller can pass `None` (e.g. `findtext` on a missing XML child);
`Task()` defaults are `name='new task', priority=1, status=0`, and
`__init__` always sets `index = 0`. -/
@[ext]
structure Task where
  name : Option String
  priority : Int
  status : Int
  index : Int
deriving DecidableEq

/-- The task produced by `Task()` with all defaults (ToDoList.py, line 20). -/
def defaultTask : Task :=
  { name := some "new task", priority := 1, status := 0, index := 0 }

/-- A reference to a Python `Task` object. -/
abbrev Ref := Nat

/-- The object heap: every reference resolves to a task value. -/
abbrev Heap := Ref → Task

/-- Assignment `r.field = ...`: update the heap at one reference. -/
def setTask (h : Heap) (r : Ref) (t : Task) : Heap :=
  fun x => if x = r then t else h x

/-- `TaskStore` state (ToDoList.py, lines 41-106): `tasks` is the stored
list (Python `self.tasks`, holding object references in storage order). -/
structure TaskStore where
  tasks : List Ref
  heap : Heap

/-- The loop `for i, task in enumerate(tasks): task.index = i`, started at
counter value `i`. -/
def assignIndices : List Ref → Int → Heap → Heap
  | [], _, h => h
  | r :: rs, i, h => assignIndices rs (i + 1) (setTask h r { h r with index := i })

/-- `TaskStore.resetTasks` (ToDoList.py, lines 86-90): assign `index = i`
for `i` in `0..n-1` over the stored list in storage order. -/
def resetTasks (s : TaskStore) : TaskStore :=
  { s with heap := assignIndices s.tasks 0 s.heap }

/-- One iteration of the `filterFinished` loop body (ToDoList.py, lines
94-96): `if hideFinished and task.status == 2: task.index = -1`. -/
def filterStep (hideFinished : Bool) (h : Heap) (r : Ref) : Heap :=
  if hideFinished = true ∧ (h r).status = 2 then
    setTask h r { h r with index := -1 }
  else h

/-- `TaskStore.filterFinished` (ToDoList.py, lines 91-96): walk the stored
list and give every finished task (status `2`) index `-1` when
`hideFinished` is set. -/
def filterFinished (hideFinished : Bool) (s : TaskStore) : TaskStore :=
  { s with heap := s.tasks.foldl (filterStep hideFinished) s.heap }

/-- The sort key of `sorted(..., key=lambda task: task.priority)`: compare
referenced tasks by `priority`. -/
def priorityLE (h : Heap) (a b : Ref) : Prop :=
  (h a).priority ≤ (h b).priority

instance (h : Heap) : DecidableRel (priorityLE h) :=
  fun a b => inferInstanceAs (Decidable ((h a).priority ≤ (h b).priority))

instance (h : Heap) : IsTotal Ref (priorityLE h) :=
  ⟨fun a b => le_total (h a).priority (h b).priority⟩

instance (h : Heap) : IsTrans Ref (priorityLE h) :=
  ⟨fun _ _ _ hab hbc => le_trans hab hbc⟩

/-- The first comprehension of `sortByPriority` (ToDoList.py, line 100):
`[t for t in self.tasks if t.index >= 0]`. -/
def survivors (s : TaskStore) : List Ref :=
  s.tasks.filter fun t => decide (0 ≤ (s.heap t).index)

/-- The local `sortedTasks` of `sortByPriority` after the optional
reversal (ToDoList.py, lines 100-103): Python's `sorted` is a stable
ascending sort by the key, modelled by the stable `List.insertionSort`;
`sortedTasks.reverse()` when `active`. -/
def displayOrder (active : Bool) (s : TaskStore) : List Ref :=
  if active then (List.insertionSort (priorityLE s.heap) (survivors s)).reverse
  else List.insertionSort (priorityLE s.heap) (survivors s)

/-- `TaskStore.sortByPriority` (ToDoList.py, lines 98-106): run the index
assignment loop over `[t for t in sortedTasks if t.index >= 0]` (the
second, redundant filter is translated verbatim).  Both comprehensions are
evaluated against the pre-loop heap, exactly as in Python where they are
materialised before the loop mutates anything. -/
def sortByPriority (active : Bool) (s : TaskStore) : TaskStore :=
  { s with
    heap := assignIndices
      ((displayOrder active s).filter fun t => decide (0 ≤ (s.heap t).index))
      0 s.heap }

/-- A reference not yet used by the store (Python allocates a fresh object,
distinct from every stored one). -/
def freshRef (rs : List Ref) : Ref :=
  rs.foldr (fun r m => max r m) 0 + 1

/-- `TaskStore.addTask` (ToDoList.py, lines 50-55): `newTask = Task();
self.tasks.insert(0, newTask); return newTask`.  Returns the reference to
the new task together with the new store. -/
def addTask (s : TaskStore) : Ref × TaskStore :=
  let r := freshRef s.tasks
  (r, { tasks := r :: s.tasks, heap := setTask s.heap r defaultTask })

/-- `TaskStore.deleteTask` (ToDoList.py, lines 57-61), parameterised by the
task to delete (Python fetches it from the signal sender):
`taskToDelete.index = -2`, then keep exactly the list entries that are not
that object (`!=` on these objects is reference inequality), then
`resetTasks`. -/
def deleteTask (taskToDelete : Ref) (s : TaskStore) : TaskStore :=
  let h := setTask s.heap taskToDelete
    { s.heap taskToDelete with index := -2 }
  resetTasks
    { tasks := s.tasks.filter fun task => decide (taskToDelete ≠ task),
      heap := h }

/-- `MainWindow.applyFilterAndSorting` (ToDoList.py, lines 521-527): one
recompute pass `resetTasks`, then `filterFinished`, then `sortByPriority`. -/
def applyFilterAndSorting (hideFinished active : Bool) (s : TaskStore) : TaskStore :=
  sortByPriority active (filterFinished hideFinished (resetTasks s))

/-- A concrete heap holding the given tasks at references `0..n-1`. -/
def exampleHeap (ts : List Task) : Heap :=
  fun r => ts.getD r defaultTask

/-- A concrete store holding the given tasks in the given order. -/
def exampleStore (ts : List Task) : TaskStore :=
  ⟨List.range ts.length, exampleHeap ts⟩

/-- Two stored tasks with equal priority, both visible, in storage order
`0` then `1`. -/
def tieStore : TaskStore :=
  exampleStore [{ name := some "a", priority := 5, status := 0, index := 0 },
                { name := some "b", priority := 5, status := 0, index := 1 }]

/-- One stored task carrying the pending-deletion sentinel index `-2`. -/
def pendingStore : TaskStore :=
  exampleStore [{ name := some "p", priority := 1, status := 0, index := -2 }]

/-- Two visible stored tasks with distinct priorities. -/
def twoStore : TaskStore :=
  exampleStore [{ name := some "a", priority := 1, status := 0, index := 0 },
                { name := some "b", priority := 2, status := 0, index := 1 }]

/-- Three stored tasks, the first two with identical field values (they
are distinct objects at distinct references). -/
def dupFieldStore : TaskStore :=
  exampleStore [{ name := some "same", priority := 1, status := 0, index := 0 },
                { name := some "same", priority := 1, status := 0, index := 0 },
                { name := some "other", priority := 2, status := 1, index := 0 }]

/-- The spec's scenario list: `A(pri=1, finished)`, `B(pri=3, waiting)`,
`C(pri=2, finished)`. -/
def mixedStore : TaskStore :=
  exampleStore [{ name := some "A", priority := 1, status := 2, index := 0 },
                { name := some "B", priority := 3, status := 0, index := 0 },
                { name := some "C", priority := 2, status := 2, index := 0 }]

/-! ## Persistence (ToDoList.py: `loadTasks` lines 63-84, task
serialisation in `saveSettingsAndTasks` lines 466-489)

The XML file is modelled at the level the code observes it: either the
file is missing (`os.path.isfile` false), or `ET.parse` raises (malformed
XML), or parsing succeeds and `root.findall('Task')` yields a list of task
elements, each carrying the `findtext` results for its `name`, `priority`,
`status` and `index` children (`none` when the child element is absent). -/

/-- The `findtext` view of one `<Task>` element. -/
structure TaskElement where
  nameText : Option String
  priorityText : Option String
  statusText : Option String
  indexText : Option String
deriving DecidableEq

/-- The task file as observed by `loadTasks`. -/
inductive TasksFile where
  | missing
  | malformed
  | parsed (taskElements : List TaskElement)
deriving DecidableEq

/-- The uncaught exceptions `loadTasks` can propagate. -/
inductive LoadError where
  | xmlParseError
  | fieldTypeError
  | fieldValueError
deriving DecidableEq

/-- The numeric value of a decimal digit character, or `none`. -/
def charDigit (c : Char) : Option Nat :=
  if '0' ≤ c ∧ c ≤ '9' then some (c.toNat - '0'.toNat) else none

/-- Parse a non-empty all-digit character list as a natural number
(most-significant digit first). -/
def parseNatChars (l : List Char) : Option Nat :=
  if l = [] then none
  else (l.mapM charDigit).map fun ds => Nat.ofDigits 10 ds.reverse

/-- Python's `int(s)` on a decimal-literal string: an optional leading
minus sign followed by at least one digit; anything else raises
`ValueError` (modelled as `none`). -/
def pyInt (s : String) : Option Int :=
  match s.data with
  | '-' :: rest => (parseNatChars rest).map fun m => -(m : Int)
  | l => (parseNatChars l).map fun m => (m : Int)

/-- The decimal digit characters of a natural number, most significant
first; `"0"` for zero. -/
def natDigitChars (n : Nat) : List Char :=
  if n = 0 then ['0'] else ((Nat.digits 10 n).map Nat.digitChar).reverse

/-- Python's `str` on an integer. -/
def pyStrInt (n : Int) : String :=
  if n < 0 then ⟨'-' :: natDigitChars n.natAbs⟩ else ⟨natDigitChars n.natAbs⟩

/-- Python's `str` on the `name` attribute (`str(None)` is `"None"`). -/
def pyStrName : Option String → String
  | none => "None"
  | some s => s

/-- `int(fieldText)` as used by `loadTasks`: `int(None)` raises
`TypeError`, a non-numeric string raises `ValueError`; both are uncaught. -/
def intOfField : Option String → Except LoadError Int
  | none => .error .fieldTypeError
  | some s =>
    match pyInt s with
    | some n => .ok n
    | none => .error .fieldValueError

/-- Deserialise one `<Task>` element (ToDoList.py, lines 77-79):
`Task(name=te.findtext('name'), priority=int(te.findtext('priority')),
status=int(te.findtext('status')))` — the `priority` conversion runs
first, then `status`, and the first failure propagates; the constructor
sets `index = 0`.  The saved `index` child is never read. -/
def taskOfElement (te : TaskElement) : Except LoadError Task :=
  match intOfField te.priorityText with
  | .error e => .error e
  | .ok p =>
    match intOfField te.statusText with
    | .error e => .error e
    | .ok st => .ok { name := te.nameText, priority := p, status := st, index := 0 }

/-- `TaskStore.loadTasks` (ToDoList.py, lines 63-84). -/
def loadTasks : TasksFile → Except LoadError (List Task)
  | .missing => .ok [defaultTask]
  | .malformed => .error .xmlParseError
  | .parsed taskElements =>
    if taskElements = [] then .ok [defaultTask]
    else taskElements.mapM taskOfElement

/-- The `<Task>` element written for one task by `saveSettingsAndTasks`
(ToDoList.py, lines 480-486): one child per attribute of `task.__dict__`,
with text `str(value)`. -/
def serializeTask (t : Task) : TaskElement :=
  { nameText := some (pyStrName t.name)
    priorityText := some (pyStrInt t.priority)
    statusText := some (pyStrInt t.status)
    indexText := some (pyStrInt t.index) }

/-- The task records of the file written by `saveSettingsAndTasks`
(ToDoList.py, lines 466-489), as `loadTasks` will observe them: the write
always succeeds and produces well-formed XML with one `<Task>` element per
stored task, in storage order. -/
def saveTasks (ts : List Task) : TasksFile :=
  .parsed (ts.map serializeTask)

/-- Concrete task records with parseable numeric fields (the second has
no `name` or `index` child). -/
def goodElements : List TaskElement :=
  [{ nameText := some "t1", priorityText := some "2",
     statusText := some "0", indexText := some "7" },
   { nameText := none, priorityText := some "-3",
     statusText := some "2", indexText := none }]

/-- A concrete task record whose `priority` text is not numeric. -/
def badElement : TaskElement :=
  { nameText := some "bad", priorityText := some "high",
    statusText := some "0", indexText := none }

/-- Concrete tasks with string names and arbitrary indices, used to
exercise the save/load round trip. -/
def roundTripTasks : List Task :=
  [{ name := some "alpha", priority := -4, status := 2, index := 9 },
   { name := some "", priority := 0, status := 1, index := -2 }]

/-! ## Lemmas: heap updates and the index-assignment loop -/

theorem setTask_same (h : Heap) (r : Ref) (t : Task) : setTask h r t r = t := by
  simp [setTask]

theorem setTask_other (h : Heap) (r : Ref) (t : Task) {x : Ref} (hx : x ≠ r) :
    setTask h r t x = h x := by
  simp [setTask, hx]

/-- References outside the assignment loop's list are untouched. -/
theorem assignIndices_not_mem (L : List Ref) (i : Int) (h : Heap) {r : Ref}
    (hr : r ∉ L) : assignIndices L i h r = h r := by
  induction L generalizing i h with
  | nil => rfl
  | cons a L ih =>
    simp only [List.mem_cons, not_or] at hr
    rw [assignIndices, ih _ _ hr.2, setTask_other _ _ _ hr.1]

/-- On a duplicate-free list the assignment loop gives each listed
reference the index `i + position`. -/
theorem assignIndices_mem (L : List Ref) (hnd : L.Nodup) {r : Ref}
    (hr : r ∈ L) (i : Int) (h : Heap) :
    assignIndices L i h r = { h r with index := i + (L.indexOf r : Int) } := by
  induction L generalizing i h with
  | nil => cases hr
  | cons a L ih =>
    rw [assignIndices]
    rcases List.mem_cons.mp hr with rfl | hr'
    · rw [assignIndices_not_mem L _ _ (List.nodup_cons.mp hnd).1, setTask_same]
      simp
    · have hne : r ≠ a := fun e => (List.nodup_cons.mp hnd).1 (e ▸ hr')
      rw [ih (List.nodup_cons.mp hnd).2 hr' _ _, setTask_other _ _ _ hne,
        List.indexOf_cons_ne _ (Ne.symm hne)]
      have : i + 1 + (List.indexOf r L : Int) = i + ((List.indexOf r L).succ : Int) := by
        push_cast; ring
      rw [this]

/-- The assignment loop only writes `index`: every other field of every
task is untouched. -/
theorem assignIndices_fields (L : List Ref) (i : Int) (h : Heap) (r : Ref) :
    (assignIndices L i h r).name = (h r).name ∧
    (assignIndices L i h r).priority = (h r).priority ∧
    (assignIndices L i h r).status = (h r).status := by
  induction L generalizing i h with
  | nil => exact ⟨rfl, rfl, rfl⟩
  | cons a L ih =>
    rw [assignIndices]
    obtain ⟨h1, h2, h3⟩ := ih (i + 1) (setTask h a { h a with index := i })
    by_cases hra : r = a
    · subst hra
      rw [setTask_same] at h1 h2 h3
      exact ⟨h1, h2, h3⟩
    · rw [setTask_other _ _ _ hra] at h1 h2 h3
      exact ⟨h1, h2, h3⟩

/-- Pointwise description of the `filterFinished` loop: a reference is
re-indexed to `-1` exactly when filtering is on, it is stored, and its
task is finished; every other heap entry is untouched. -/
theorem foldl_filterStep (hide : Bool) (L : List Ref) (h : Heap) (r : Ref) :
    L.foldl (filterStep hide) h r =
      if hide = true ∧ r ∈ L ∧ (h r).status = 2
      then { h r with index := -1 } else h r := by
  induction L generalizing h with
  | nil => simp
  | cons a L ih =>
    rw [List.foldl_cons, ih]
    by_cases hh : hide = true
    · subst hh
      by_cases hst : (h a).status = 2
      · have hstep : filterStep true h a = setTask h a { h a with index := -1 } := by
          simp [filterStep, hst]
        rw [hstep]
        by_cases hra : r = a
        · subst hra
          rw [setTask_same]
          simp [hst]
        · rw [setTask_other _ _ _ hra]
          simp [List.mem_cons, hra]
      · have hstep : filterStep true h a = h := by
          simp [filterStep, hst]
        rw [hstep]
        by_cases hra : r = a
        · subst hra
          simp [hst]
        · simp [List.mem_cons, hra]
    · simp only [Bool.not_eq_true] at hh
      subst hh
      simp [filterStep]

/-! ## Characterisations of the three index-recomputation operations -/

theorem resetTasks_tasks (s : TaskStore) : (resetTasks s).tasks = s.tasks := rfl

theorem resetTasks_heap_not_mem (s : TaskStore) {r : Ref} (hr : r ∉ s.tasks) :
    (resetTasks s).heap r = s.heap r :=
  assignIndices_not_mem _ _ _ hr

/-- `resetTasks` gives every stored task its storage position as index. -/
theorem resetTasks_heap_mem (s : TaskStore) (hnd : s.tasks.Nodup) {r : Ref}
    (hr : r ∈ s.tasks) :
    (resetTasks s).heap r = { s.heap r with index := (s.tasks.indexOf r : Int) } := by
  rw [resetTasks]
  show assignIndices s.tasks 0 s.heap r = _
  rw [assignIndices_mem _ hnd hr _ _]
  simp

theorem filterFinished_tasks (hide : Bool) (s : TaskStore) :
    (filterFinished hide s).tasks = s.tasks := rfl

theorem filterFinished_heap (hide : Bool) (s : TaskStore) (r : Ref) :
    (filterFinished hide s).heap r =
      if hide = true ∧ r ∈ s.tasks ∧ (s.heap r).status = 2
      then { s.heap r with index := -1 } else s.heap r :=
  foldl_filterStep hide s.tasks s.heap r

/-! ## The sort step, decomposed -/

theorem mem_survivors {s : TaskStore} {r : Ref} :
    r ∈ survivors s ↔ r ∈ s.tasks ∧ 0 ≤ (s.heap r).index := by
  simp [survivors, List.mem_filter]

theorem displayOrder_perm (active : Bool) (s : TaskStore) :
    List.Perm (displayOrder active s) (survivors s) := by
  unfold displayOrder
  cases active with
  | false => exact List.perm_insertionSort _ _
  | true =>
    simpa using (List.reverse_perm _).trans (List.perm_insertionSort _ _)

theorem mem_displayOrder {active : Bool} {s : TaskStore} {r : Ref} :
    r ∈ displayOrder active s ↔ r ∈ survivors s :=
  (displayOrder_perm active s).mem_iff

theorem displayOrder_nodup (active : Bool) {s : TaskStore}
    (hnd : s.tasks.Nodup) : (displayOrder active s).Nodup :=
  ((displayOrder_perm active s).nodup_iff).mpr (hnd.filter _)

/-- The second `index >= 0` filter inside `sortByPriority` (line 105) is
the identity, so the sort's heap is the assignment loop run over
`displayOrder`. -/
theorem sortByPriority_heap_eq (active : Bool) (s : TaskStore) :
    (sortByPriority active s).heap = assignIndices (displayOrder active s) 0 s.heap := by
  have hfix : (displayOrder active s).filter (fun t => decide (0 ≤ (s.heap t).index))
      = displayOrder active s :=
    List.filter_eq_self.mpr fun a ha =>
      decide_eq_true (mem_survivors.mp (mem_displayOrder.mp ha)).2
  show assignIndices _ 0 s.heap = _
  rw [hfix]

theorem sortByPriority_tasks (active : Bool) (s : TaskStore) :
    (sortByPriority active s).tasks = s.tasks := rfl

/-- A task that is not a survivor (negative index, or not stored at all)
is untouched by `sortByPriority`. -/
theorem sortByPriority_heap_not_surv (active : Bool) (s : TaskStore) {r : Ref}
    (hr : r ∉ survivors s) : (sortByPriority active s).heap r = s.heap r := by
  rw [sortByPriority_heap_eq]
  exact assignIndices_not_mem _ _ _ (fun hm => hr (mem_displayOrder.mp hm))

/-- A survivor ends up with its rank in the display order as index. -/
theorem sortByPriority_heap_surv (active : Bool) (s : TaskStore)
    (hnd : s.tasks.Nodup) {r : Ref} (hr : r ∈ survivors s) :
    (sortByPriority active s).heap r =
      { s.heap r with index := ((displayOrder active s).indexOf r : Int) } := by
  rw [sortByPriority_heap_eq,
    assignIndices_mem _ (displayOrder_nodup active hnd) (mem_displayOrder.mpr hr) _ _]
  simp

/-- The new index of a survivor, as a bare equation. -/
theorem sortByPriority_index_surv (active : Bool) (s : TaskStore)
    (hnd : s.tasks.Nodup) {r : Ref} (hr : r ∈ survivors s) :
    ((sortByPriority active s).heap r).index
      = ((displayOrder active s).indexOf r : Int) := by
  rw [sortByPriority_heap_surv active s hnd hr]

/-! ## Generic list lemmas about positions -/

/-- Mapping every element of a duplicate-free list to its own position
enumerates `0..n-1`. -/
theorem map_indexOf_self_eq_range {α : Type} [DecidableEq α] :
    ∀ (L : List α), L.Nodup → L.map (fun a => L.indexOf a) = List.range L.length
  | [], _ => rfl
  | a :: L, hnd => by
    have haL : a ∉ L := (List.nodup_cons.mp hnd).1
    rw [List.map_cons, List.indexOf_cons_self, List.length_cons,
      List.range_succ_eq_map]
    congr 1
    have : ∀ x ∈ L, List.indexOf x (a :: L) = Nat.succ (List.indexOf x L) := by
      intro x hx
      exact List.indexOf_cons_ne _ (fun e => haL (e ▸ hx))
    rw [List.map_congr_left this, ← map_indexOf_self_eq_range L (List.nodup_cons.mp hnd).2,
      List.map_map]
    rfl

/-- In a duplicate-free list, a pair sublist means the first element sits
strictly before the second. -/
theorem indexOf_lt_of_pair_sublist {α : Type} [DecidableEq α] {a b : α} :
    ∀ {L : List α}, L.Nodup → List.Sublist [a, b] L → L.indexOf a < L.indexOf b := by
  intro L
  induction L with
  | nil => intro _ h; exact absurd (h.subset (by simp)) (List.not_mem_nil a)
  | cons c L ih =>
    intro hnd h
    have hcL : c ∉ L := (List.nodup_cons.mp hnd).1
    cases h with
    | cons _ h' =>
      have ha : a ∈ L := h'.subset (by simp)
      have hb : b ∈ L := h'.subset (by simp)
      rw [List.indexOf_cons_ne _ (fun e => hcL (by rw [e]; exact ha)),
        List.indexOf_cons_ne _ (fun e => hcL (by rw [e]; exact hb))]
      exact Nat.succ_lt_succ (ih (List.nodup_cons.mp hnd).2 h')
    | cons₂ _ h' =>
      have hb : b ∈ L := h'.subset (by simp)
      rw [List.indexOf_cons_self, List.indexOf_cons_ne _ (fun e => hcL (by rw [e]; exact hb))]
      exact Nat.succ_pos _

/-- Extract the pairwise relation of a list at two members ordered by
position. -/
theorem rel_of_pairwise_indexOf_lt {α : Type} [DecidableEq α]
    {R : α → α → Prop} {L : List α} (hp : L.Pairwise R) {a b : α}
    (ha : a ∈ L) (hb : b ∈ L) (hab : L.indexOf a < L.indexOf b) : R a b := by
  have hia := List.indexOf_lt_length.mpr ha
  have hib := List.indexOf_lt_length.mpr hb
  have := List.pairwise_iff_get.mp hp ⟨L.indexOf a, hia⟩ ⟨L.indexOf b, hib⟩ hab
  rwa [List.indexOf_get, List.indexOf_get] at this

/-! ## The three substantive properties of the sort step -/

/-- Dense re-indexing: over the survivors, the new indices are a
permutation of `0..k-1` (so in particular no index is repeated). -/
theorem sortByPriority_dense (active : Bool) (s : TaskStore) (hnd : s.tasks.Nodup) :
    List.Perm ((survivors s).map fun r => ((sortByPriority active s).heap r).index)
      ((List.range (survivors s).length).map fun n : Nat => (n : Int)) := by
  have hmap : ((survivors s).map fun r => ((sortByPriority active s).heap r).index)
      = (survivors s).map fun r => ((displayOrder active s).indexOf r : Int) := by
    apply List.map_congr_left
    intro r hr
    exact sortByPriority_index_surv active s hnd hr
  have h1 := (displayOrder_perm active s).symm.map
    fun r => ((displayOrder active s).indexOf r : Int)
  have heq : ((displayOrder active s).map fun r => ((displayOrder active s).indexOf r : Int))
      = (List.range (survivors s).length).map fun n : Nat => (n : Int) := by
    have h0 := congrArg (List.map fun n : Nat => (n : Int))
      (map_indexOf_self_eq_range _ (displayOrder_nodup active hnd))
    rw [List.map_map] at h0
    simp only [Function.comp_def] at h0
    rw [(displayOrder_perm active s).length_eq] at h0
    exact h0
  rw [hmap]
  rw [heq] at h1
  exact h1

/-- Priority ordering: among survivors, a smaller new index means a
smaller-or-equal priority (larger-or-equal when `active`, i.e. the
descending toggle, is set). -/
theorem sortByPriority_sorted (active : Bool) (s : TaskStore) (hnd : s.tasks.Nodup)
    {a b : Ref} (ha : a ∈ survivors s) (hb : b ∈ survivors s)
    (hlt : ((sortByPriority active s).heap a).index
      < ((sortByPriority active s).heap b).index) :
    if active then (s.heap b).priority ≤ (s.heap a).priority
    else (s.heap a).priority ≤ (s.heap b).priority := by
  rw [sortByPriority_index_surv active s hnd ha,
    sortByPriority_index_surv active s hnd hb] at hlt
  have hidx : (displayOrder active s).indexOf a < (displayOrder active s).indexOf b := by
    exact_mod_cast hlt
  have hma : a ∈ displayOrder active s := mem_displayOrder.mpr ha
  have hmb : b ∈ displayOrder active s := mem_displayOrder.mpr hb
  cases active with
  | false =>
    have hp : (displayOrder false s).Pairwise (priorityLE s.heap) := by
      unfold displayOrder
      simpa using List.sorted_insertionSort (priorityLE s.heap) (survivors s)
    simpa using rel_of_pairwise_indexOf_lt hp hma hmb hidx
  | true =>
    have hp : (displayOrder true s).Pairwise (fun x y => priorityLE s.heap y x) := by
      unfold displayOrder
      simp only [if_true]
      exact List.pairwise_reverse.mpr
        (List.sorted_insertionSort (priorityLE s.heap) (survivors s))
    simpa using rel_of_pairwise_indexOf_lt hp hma hmb hidx

/-- Tie-breaking: two surviving tasks of equal priority keep their
relative storage order in the new indices when `active` is false, and get
it exactly reversed when `active` is true (the code reverses the whole
stably-sorted list, ties included). -/
theorem sortByPriority_stable (active : Bool) (s : TaskStore) (hnd : s.tasks.Nodup)
    {a b : Ref} (hab : List.Sublist [a, b] s.tasks)
    (ha : a ∈ survivors s) (hb : b ∈ survivors s)
    (hpri : (s.heap a).priority = (s.heap b).priority) :
    if active
    then ((sortByPriority active s).heap b).index
      < ((sortByPriority active s).heap a).index
    else ((sortByPriority active s).heap a).index
      < ((sortByPriority active s).heap b).index := by
  have hpa : decide (0 ≤ (s.heap a).index) = true :=
    decide_eq_true (mem_survivors.mp ha).2
  have hpb : decide (0 ≤ (s.heap b).index) = true :=
    decide_eq_true (mem_survivors.mp hb).2
  have hsub : List.Sublist [a, b] (survivors s) := by
    have h1 := hab.filter fun t => decide (0 ≤ (s.heap t).index)
    simpa [List.filter_cons, hpa, hpb] using h1
  have hsorted : List.Sublist [a, b]
      (List.insertionSort (priorityLE s.heap) (survivors s)) :=
    List.pair_sublist_insertionSort (le_of_eq hpri) hsub
  cases active with
  | false =>
    rw [if_neg (by simp)]
    rw [sortByPriority_index_surv false s hnd ha,
      sortByPriority_index_surv false s hnd hb]
    have : (displayOrder false s).indexOf a < (displayOrder false s).indexOf b := by
      refine indexOf_lt_of_pair_sublist (displayOrder_nodup false hnd) ?_
      unfold displayOrder
      simpa using hsorted
    exact_mod_cast this
  | true =>
    rw [if_pos rfl]
    rw [sortByPriority_index_surv true s hnd ha,
      sortByPriority_index_surv true s hnd hb]
    have : (displayOrder true s).indexOf b < (displayOrder true s).indexOf a := by
      refine indexOf_lt_of_pair_sublist (displayOrder_nodup true hnd) ?_
      unfold displayOrder
      simp only [if_true]
      have := hsorted.reverse
      simpa using this
    exact_mod_cast this

/-! ## Frame lemmas: the three operations only write `index` -/

theorem resetTasks_fields (s : TaskStore) (r : Ref) :
    ((resetTasks s).heap r).name = (s.heap r).name ∧
    ((resetTasks s).heap r).priority = (s.heap r).priority ∧
    ((resetTasks s).heap r).status = (s.heap r).status :=
  assignIndices_fields _ _ _ _

theorem filterFinished_fields (hide : Bool) (s : TaskStore) (r : Ref) :
    ((filterFinished hide s).heap r).name = (s.heap r).name ∧
    ((filterFinished hide s).heap r).priority = (s.heap r).priority ∧
    ((filterFinished hide s).heap r).status = (s.heap r).status := by
  rw [filterFinished_heap]
  split
  · exact ⟨rfl, rfl, rfl⟩
  · exact ⟨rfl, rfl, rfl⟩

theorem sortByPriority_fields (active : Bool) (s : TaskStore) (r : Ref) :
    ((sortByPriority active s).heap r).name = (s.heap r).name ∧
    ((sortByPriority active s).heap r).priority = (s.heap r).priority ∧
    ((sortByPriority active s).heap r).status = (s.heap r).status := by
  rw [sortByPriority_heap_eq]
  exact assignIndices_fields _ _ _ _

/-! ## The recompute pass `reset` then `filter`, before the sort -/

/-- State of a stored task after `resetTasks` then `filterFinished`:
hidden tasks carry `-1`, all others their storage position. -/
theorem afterResetFilter_heap (hide : Bool) (s : TaskStore)
    (hnd : s.tasks.Nodup) {r : Ref} (hr : r ∈ s.tasks) :
    (filterFinished hide (resetTasks s)).heap r =
      if hide = true ∧ (s.heap r).status = 2
      then { s.heap r with index := -1 }
      else { s.heap r with index := (s.tasks.indexOf r : Int) } := by
  rw [filterFinished_heap, resetTasks_heap_mem s hnd hr]
  by_cases hc : hide = true ∧ (s.heap r).status = 2
  · rw [if_pos ⟨hc.1, hr, hc.2⟩, if_pos hc]
  · rw [if_neg ?_, if_neg hc]
    intro hcon
    exact hc ⟨hcon.1, hcon.2.2⟩

/-- The survivors of the filter step are exactly the stored tasks not
hidden by it. -/
theorem survivors_afterResetFilter (hide : Bool) (s : TaskStore)
    (hnd : s.tasks.Nodup) :
    survivors (filterFinished hide (resetTasks s)) =
      s.tasks.filter fun r => decide ¬(hide = true ∧ (s.heap r).status = 2) := by
  apply List.filter_congr
  intro r hr
  rw [afterResetFilter_heap hide s hnd hr]
  by_cases hc : hide = true ∧ (s.heap r).status = 2
  · simp [hc]
  · cases hide <;> simp_all

theorem mem_survivors_afterResetFilter (hide : Bool) (s : TaskStore)
    (hnd : s.tasks.Nodup) {r : Ref} (hr : r ∈ s.tasks) :
    r ∈ survivors (filterFinished hide (resetTasks s))
      ↔ ¬(hide = true ∧ (s.heap r).status = 2) := by
  rw [survivors_afterResetFilter hide s hnd, List.mem_filter]
  cases hide <;> simp [hr]

/-! ## Claim theorems -/

/-- C2 (amended): `sortByPriority(descending)` considers exactly the tasks
with `index >= 0`: every other task is untouched and the survivors receive
a dense new ranking `0..k-1`.  A smaller new index means smaller-or-equal
priority (larger-or-equal when descending).  Ties of equal priority keep
their relative storage order when `descending` is false; when `descending`
is true the whole stably-sorted list is reversed, so equal-priority ties
come out in reverse storage order. -/
theorem sortByPriority_ranking (active : Bool) (s : TaskStore)
    (hnd : s.tasks.Nodup) :
    (sortByPriority active s).tasks = s.tasks
    ∧ (∀ r : Ref, r ∉ survivors s → (sortByPriority active s).heap r = s.heap r)
    ∧ List.Perm
        ((survivors s).map fun r => ((sortByPriority active s).heap r).index)
        ((List.range (survivors s).length).map fun n : Nat => (n : Int))
    ∧ (∀ a b : Ref, a ∈ survivors s → b ∈ survivors s →
        ((sortByPriority active s).heap a).index
          < ((sortByPriority active s).heap b).index →
        if active then (s.heap b).priority ≤ (s.heap a).priority
        else (s.heap a).priority ≤ (s.heap b).priority)
    ∧ (∀ a b : Ref, List.Sublist [a, b] s.tasks →
        a ∈ survivors s → b ∈ survivors s →
        (s.heap a).priority = (s.heap b).priority →
        if active
        then ((sortByPriority active s).heap b).index
          < ((sortByPriority active s).heap a).index
        else ((sortByPriority active s).heap a).index
          < ((sortByPriority active s).heap b).index) :=
  ⟨rfl, fun _ hr => sortByPriority_heap_not_surv active s hr,
   sortByPriority_dense active s hnd,
   fun _ _ ha hb hlt => sortByPriority_sorted active s hnd ha hb hlt,
   fun _ _ hab ha hb hpri => sortByPriority_stable active s hnd hab ha hb hpri⟩

/-- C2 counterexample: two stored tasks of equal priority, both visible,
sorted with `descending = true`: the earlier-stored task ends up with the
LARGER display index, so the tie is not broken in storage order as the
claim demands. -/
theorem sortByPriority_ranking_counterexample :
    (tieStore.heap 0).priority = (tieStore.heap 1).priority
    ∧ List.Sublist [0, 1] tieStore.tasks
    ∧ ((sortByPriority true tieStore).heap 1).index
      < ((sortByPriority true tieStore).heap 0).index := by
  refine ⟨by decide, by decide, by decide⟩

/-- C2 witness: the amended theorem applied to `tieStore` with
`descending = false`; the earlier-stored of two equal-priority tasks gets
the smaller index. -/
theorem sortByPriority_ranking_witness :
    tieStore.tasks.Nodup
    ∧ ((sortByPriority false tieStore).heap 0).index
      < ((sortByPriority false tieStore).heap 1).index := by
  refine ⟨by decide, ?_⟩
  have h := (sortByPriority_ranking false tieStore (by decide)).2.2.2.2
    0 1 (by decide) (by decide) (by decide) (by decide)
  simpa using h

/-- C3: `filterFinished(false)` changes nothing; `filterFinished(true)`
sets `index = -1` on exactly the stored tasks whose status is Finished
(`2`) and leaves every other heap entry untouched. -/
theorem filterFinished_spec (s : TaskStore) (r : Ref) :
    (filterFinished false s).tasks = s.tasks
    ∧ (filterFinished false s).heap r = s.heap r
    ∧ (filterFinished true s).tasks = s.tasks
    ∧ (filterFinished true s).heap r =
        (if r ∈ s.tasks ∧ (s.heap r).status = 2
         then { s.heap r with index := -1 } else s.heap r) := by
  refine ⟨rfl, ?_, rfl, ?_⟩
  · rw [filterFinished_heap]
    simp
  · rw [filterFinished_heap]
    simp

/-- C8 (amended): `deleteTask` itself sets the pending-deletion sentinel
`index = -2` on the task being removed, before filtering it out of the
stored list; no caller has to set it. -/
theorem deleteTask_sets_sentinel (t : Ref) (s : TaskStore) :
    ((deleteTask t s).heap t).index = -2
    ∧ t ∉ (deleteTask t s).tasks := by
  have hnot : t ∉ s.tasks.filter fun task => decide (t ≠ task) := by
    intro hmem
    have := List.of_mem_filter hmem
    simp at this
  constructor
  · show ((resetTasks _).heap t).index = -2
    rw [resetTasks_heap_not_mem _ hnot]
    show (setTask s.heap t _ t).index = -2
    rw [setTask_same]
  · exact hnot

/-- C8 counterexample: on a concrete store whose first task has index `0`,
calling `deleteTask` on it leaves its object with index `-2` — the remove
operation itself drives the sentinel, contradicting the claim that only
the caller sets it. -/
theorem deleteTask_sets_sentinel_counterexample :
    (twoStore.heap 0).index = 0
    ∧ ((deleteTask 0 twoStore).heap 0).index = -2 := by
  refine ⟨by decide, by decide⟩

/-- C9 (amended): only `sortByPriority` is guaranteed to leave a task with
index `-2` untouched (it only re-indexes tasks with `index >= 0`);
`resetTasks` reassigns every stored task's index — including a `-2` one —
to its storage position, and `filterFinished(true)` moves a stored `-2`
task to `-1` when its status is Finished. -/
theorem sentinel_interaction :
    (∀ (active : Bool) (s : TaskStore) (r : Ref), (s.heap r).index = -2 →
      (sortByPriority active s).heap r = s.heap r)
    ∧ (∀ (s : TaskStore) (r : Ref), s.tasks.Nodup → r ∈ s.tasks →
        (s.heap r).index = -2 →
        ((resetTasks s).heap r).index = (s.tasks.indexOf r : Int))
    ∧ (∀ (s : TaskStore) (r : Ref), r ∈ s.tasks → (s.heap r).status = 2 →
        (s.heap r).index = -2 →
        ((filterFinished true s).heap r).index = -1) := by
  refine ⟨?_, ?_, ?_⟩
  · intro active s r hidx
    apply sortByPriority_heap_not_surv
    intro hmem
    have := (mem_survivors.mp hmem).2
    omega
  · intro s r hnd hr _
    rw [resetTasks_heap_mem s hnd hr]
  · intro s r hr hst _
    rw [filterFinished_heap, if_pos ⟨rfl, hr, hst⟩]

/-- C9 counterexample: a store holding one task with index `-2`:
`resetTasks` overwrites that index with the storage position `0`, so the
recompute operations do not leave the `-2` sentinel alone. -/
theorem sentinel_interaction_counterexample :
    (pendingStore.heap 0).index = -2
    ∧ ((resetTasks pendingStore).heap 0).index = 0 := by
  refine ⟨by decide, by decide⟩

/-- C9 witness: the amended theorem applied to `pendingStore`. -/
theorem sentinel_interaction_witness :
    (sortByPriority true pendingStore).heap 0 = pendingStore.heap 0
    ∧ ((resetTasks pendingStore).heap 0).index = ((pendingStore.tasks.indexOf 0 : Nat) : Int) := by
  constructor
  · exact sentinel_interaction.1 true pendingStore 0 (by decide)
  · exact sentinel_interaction.2.1 pendingStore 0 (by decide) (by decide) (by decide)

/-- C10: each of `resetTasks`, `filterFinished` and `sortByPriority`
modifies only `index` fields: every task's name, priority and status are
unchanged, and the stored list (membership and order) is unchanged. -/
theorem recompute_ops_frame (s : TaskStore) (hide active : Bool) (r : Ref) :
    (resetTasks s).tasks = s.tasks
    ∧ (filterFinished hide s).tasks = s.tasks
    ∧ (sortByPriority active s).tasks = s.tasks
    ∧ ((resetTasks s).heap r).name = (s.heap r).name
    ∧ ((resetTasks s).heap r).priority = (s.heap r).priority
    ∧ ((resetTasks s).heap r).status = (s.heap r).status
    ∧ ((filterFinished hide s).heap r).name = (s.heap r).name
    ∧ ((filterFinished hide s).heap r).priority = (s.heap r).priority
    ∧ ((filterFinished hide s).heap r).status = (s.heap r).status
    ∧ ((sortByPriority active s).heap r).name = (s.heap r).name
    ∧ ((sortByPriority active s).heap r).priority = (s.heap r).priority
    ∧ ((sortByPriority active s).heap r).status = (s.heap r).status := by
  obtain ⟨a1, a2, a3⟩ := resetTasks_fields s r
  obtain ⟨b1, b2, b3⟩ := filterFinished_fields hide s r
  obtain ⟨c1, c2, c3⟩ := sortByPriority_fields active s r
  exact ⟨rfl, rfl, rfl, a1, a2, a3, b1, b2, b3, c1, c2, c3⟩

/-- C1: immediately after one recompute pass (`resetTasks`, then
`filterFinished(hide)`, then `sortByPriority(descending)`), the stored
tasks with `index >= 0` are exactly the visible ones (not hidden by the
filter), their indices are a permutation of `0..k-1` (dense, no index
shared), and the numbering follows the chosen display order: a smaller
index means smaller-or-equal priority, or larger-or-equal when
descending. -/
theorem recompute_invariant (s : TaskStore) (hide active : Bool)
    (hnd : s.tasks.Nodup) :
    (applyFilterAndSorting hide active s).tasks = s.tasks
    ∧ (∀ r ∈ s.tasks,
        0 ≤ ((applyFilterAndSorting hide active s).heap r).index
          ↔ ¬(hide = true ∧ (s.heap r).status = 2))
    ∧ List.Perm
        ((s.tasks.filter fun r =>
            decide (0 ≤ ((applyFilterAndSorting hide active s).heap r).index)).map
          fun r => ((applyFilterAndSorting hide active s).heap r).index)
        ((List.range (s.tasks.filter fun r =>
            decide (0 ≤ ((applyFilterAndSorting hide active s).heap r).index)).length).map
          fun n : Nat => (n : Int))
    ∧ (∀ a b : Ref, a ∈ s.tasks → b ∈ s.tasks →
        0 ≤ ((applyFilterAndSorting hide active s).heap a).index →
        0 ≤ ((applyFilterAndSorting hide active s).heap b).index →
        ((applyFilterAndSorting hide active s).heap a).index
          < ((applyFilterAndSorting hide active s).heap b).index →
        if active then (s.heap b).priority ≤ (s.heap a).priority
        else (s.heap a).priority ≤ (s.heap b).priority) := by
  have hvis : ∀ r ∈ s.tasks,
      (0 ≤ ((applyFilterAndSorting hide active s).heap r).index
        ↔ r ∈ survivors (filterFinished hide (resetTasks s))) := by
    intro r hr
    constructor
    · intro h0
      by_contra hns
      have hunch : (applyFilterAndSorting hide active s).heap r
          = (filterFinished hide (resetTasks s)).heap r :=
        sortByPriority_heap_not_surv active _ hns
      rw [hunch] at h0
      have hc : hide = true ∧ (s.heap r).status = 2 := by
        by_contra hcon
        exact hns ((mem_survivors_afterResetFilter hide s hnd hr).mpr hcon)
      rw [afterResetFilter_heap hide s hnd hr, if_pos hc] at h0
      simp at h0
    · intro hmem
      have := sortByPriority_index_surv active
        (filterFinished hide (resetTasks s)) hnd hmem
      show (0 : Int) ≤ _
      rw [show (applyFilterAndSorting hide active s).heap
          = (sortByPriority active (filterFinished hide (resetTasks s))).heap from rfl,
        this]
      exact Int.natCast_nonneg _
  refine ⟨rfl, ?_, ?_, ?_⟩
  · intro r hr
    exact (hvis r hr).trans (mem_survivors_afterResetFilter hide s hnd hr)
  · have hfilter : (s.tasks.filter fun r =>
        decide (0 ≤ ((applyFilterAndSorting hide active s).heap r).index))
        = survivors (filterFinished hide (resetTasks s)) := by
      apply List.filter_congr
      intro r hr
      apply decide_eq_decide.mpr
      have h2 : r ∈ survivors (filterFinished hide (resetTasks s))
          ↔ 0 ≤ ((filterFinished hide (resetTasks s)).heap r).index := by
        rw [mem_survivors]
        have hr2 : r ∈ (filterFinished hide (resetTasks s)).tasks := hr
        simp [hr2]
      exact (hvis r hr).trans h2
    rw [hfilter]
    exact sortByPriority_dense active (filterFinished hide (resetTasks s)) hnd
  · intro a b ha hb h0a h0b hlt
    have hma := (hvis a ha).mp h0a
    have hmb := (hvis b hb).mp h0b
    have hsorted := sortByPriority_sorted active
      (filterFinished hide (resetTasks s)) hnd hma hmb hlt
    have hpa : ((filterFinished hide (resetTasks s)).heap a).priority
        = (s.heap a).priority :=
      ((filterFinished_fields hide (resetTasks s) a).2.1).trans
        ((resetTasks_fields s a).2.1)
    have hpb : ((filterFinished hide (resetTasks s)).heap b).priority
        = (s.heap b).priority :=
      ((filterFinished_fields hide (resetTasks s) b).2.1).trans
        ((resetTasks_fields s b).2.1)
    rw [hpa, hpb] at hsorted
    exact hsorted

/-- C1 witness: the invariant applied to the spec's scenario store with
`hide = true` and `descending = true`; task `1` (priority 3, waiting) is
visible while task `0` (finished) is not. -/
theorem recompute_invariant_witness :
    mixedStore.tasks.Nodup
    ∧ (0 ≤ ((applyFilterAndSorting true true mixedStore).heap 1).index
        ↔ ¬(true = true ∧ (mixedStore.heap 1).status = 2))
    ∧ (0 ≤ ((applyFilterAndSorting true true mixedStore).heap 0).index
        ↔ ¬(true = true ∧ (mixedStore.heap 0).status = 2)) := by
  refine ⟨by decide, ?_, ?_⟩
  · exact (recompute_invariant mixedStore true true (by decide)).2.1 1 (by decide)
  · exact (recompute_invariant mixedStore true true (by decide)).2.1 0 (by decide)

/-- Any member of a reference list is at most the running maximum. -/
theorem le_foldr_max (rs : List Ref) {r : Ref} (hr : r ∈ rs) :
    r ≤ rs.foldr (fun a m => max a m) 0 := by
  induction rs with
  | nil => cases hr
  | cons a rs ih =>
    rcases List.mem_cons.mp hr with rfl | hr'
    · exact le_max_left _ _
    · exact le_trans (ih hr') (le_max_right _ _)

/-- The freshly allocated reference is not already stored. -/
theorem freshRef_not_mem (rs : List Ref) : freshRef rs ∉ rs := by
  intro hmem
  have h := le_foldr_max rs hmem
  rw [freshRef] at h
  exact Nat.not_succ_le_self _ h

/-- C6: `addTask` creates a task with the default field values
(`name="new task"`, `priority=1`, `status=0`), inserts it at storage
position 0 in front of all previously stored tasks (whose relative order
and heap entries are unchanged), and returns it. -/
theorem addTask_spec (s : TaskStore) :
    (addTask s).2.tasks = (addTask s).1 :: s.tasks
    ∧ (addTask s).2.heap (addTask s).1 =
        { name := some "new task", priority := 1, status := 0, index := 0 }
    ∧ (∀ r ∈ s.tasks, (addTask s).2.heap r = s.heap r) := by
  refine ⟨rfl, ?_, ?_⟩
  · show setTask s.heap (freshRef s.tasks) defaultTask (freshRef s.tasks) = _
    rw [setTask_same]
    rfl
  · intro r hr
    show setTask s.heap (freshRef s.tasks) defaultTask r = s.heap r
    exact setTask_other _ _ _ (fun e => freshRef_not_mem s.tasks (e ▸ hr))

/-- C6 witness: `addTask` on a concrete two-task store. -/
theorem addTask_spec_witness :
    (addTask twoStore).2.tasks = (addTask twoStore).1 :: twoStore.tasks
    ∧ (addTask twoStore).2.heap 0 = twoStore.heap 0 := by
  exact ⟨(addTask_spec twoStore).1, (addTask_spec twoStore).2.2 0 (by decide)⟩

/-- C7: for a store containing task `t`, `deleteTask` removes exactly one
stored entry — the one that IS `t` (reference identity; tasks with equal
field values at other references survive) — keeps the remaining storage
order, and renumbers the remaining collection like `resetTasks`
(`index = 0..n-1` in storage order). -/
theorem deleteTask_spec (s : TaskStore) (t : Ref) (hnd : s.tasks.Nodup)
    (ht : t ∈ s.tasks) :
    (deleteTask t s).tasks = s.tasks.erase t
    ∧ (deleteTask t s).tasks.length + 1 = s.tasks.length
    ∧ (∀ r ∈ s.tasks, r ≠ t → r ∈ (deleteTask t s).tasks)
    ∧ (∀ r ∈ (deleteTask t s).tasks,
        ((deleteTask t s).heap r).index = ((deleteTask t s).tasks.indexOf r : Int)) := by
  have htasks : (deleteTask t s).tasks
      = s.tasks.filter fun task => decide (t ≠ task) := rfl
  have herase : s.tasks.erase t = s.tasks.filter fun task => decide (t ≠ task) := by
    rw [hnd.erase_eq_filter]
    apply List.filter_congr
    intro x _
    by_cases hx : x = t
    · simp [hx]
    · simp [hx, Ne.symm hx]
  have h1 : (deleteTask t s).tasks = s.tasks.erase t := htasks.trans herase.symm
  refine ⟨h1, ?_, ?_, ?_⟩
  · rw [h1, List.length_erase_of_mem ht]
    have := List.length_pos.mpr (List.ne_nil_of_mem ht)
    omega
  · intro r hr hrt
    rw [htasks]
    exact List.mem_filter.mpr ⟨hr, by simpa using Ne.symm hrt⟩
  · intro r hr
    have hnd3 : ((⟨s.tasks.filter fun task => decide (t ≠ task),
        setTask s.heap t { s.heap t with index := -2 }⟩ : TaskStore)).tasks.Nodup :=
      hnd.filter _
    have hr3 : r ∈ ((⟨s.tasks.filter fun task => decide (t ≠ task),
        setTask s.heap t { s.heap t with index := -2 }⟩ : TaskStore)).tasks := hr
    show ((resetTasks
        (⟨s.tasks.filter fun task => decide (t ≠ task),
          setTask s.heap t { s.heap t with index := -2 }⟩ : TaskStore)).heap r).index
      = (((s.tasks.filter fun task => decide (t ≠ task)).indexOf r : Nat) : Int)
    rw [resetTasks_heap_mem _ hnd3 hr3]

/-- C7 witness: deleting the second of two field-identical tasks removes
only that one; the first twin survives and the rest is renumbered. -/
theorem deleteTask_spec_witness :
    dupFieldStore.tasks.Nodup
    ∧ dupFieldStore.heap 0 = dupFieldStore.heap 1
    ∧ (deleteTask 1 dupFieldStore).tasks = dupFieldStore.tasks.erase 1
    ∧ 0 ∈ (deleteTask 1 dupFieldStore).tasks
    ∧ ((deleteTask 1 dupFieldStore).heap 0).index
      = (((deleteTask 1 dupFieldStore).tasks.indexOf 0 : Nat) : Int) := by
  refine ⟨by decide, by decide,
    (deleteTask_spec dupFieldStore 1 (by decide) (by decide)).1,
    (deleteTask_spec dupFieldStore 1 (by decide) (by decide)).2.2.1 0 (by decide) (by decide),
    (deleteTask_spec dupFieldStore 1 (by decide) (by decide)).2.2.2 0 (by decide)⟩

/-! ## Decimal print/parse round trip -/

theorem charDigit_digitChar : ∀ d : Nat, d < 10 → charDigit (Nat.digitChar d) = some d := by
  decide

theorem digitChar_ne_dash : ∀ d : Nat, d < 10 → Nat.digitChar d ≠ '-' := by
  decide

theorem mapM_charDigit_map_digitChar :
    ∀ l : List Nat, (∀ d ∈ l, d < 10) →
      (l.map Nat.digitChar).mapM charDigit = some l
  | [], _ => rfl
  | d :: l, h => by
    rw [List.map_cons, List.mapM_cons, charDigit_digitChar d (h d (by simp)),
      mapM_charDigit_map_digitChar l (fun x hx => h x (by simp [hx]))]
    rfl

theorem natDigitChars_ne_nil (m : Nat) : natDigitChars m ≠ [] := by
  rw [natDigitChars]
  by_cases hm : m = 0
  · simp [hm]
  · rw [if_neg hm]
    simp [Nat.digits_ne_nil_iff_ne_zero.mpr hm]

theorem natDigitChars_ne_dash (m : Nat) : ∀ c ∈ natDigitChars m, c ≠ '-' := by
  intro c hc
  rw [natDigitChars] at hc
  by_cases hm : m = 0
  · rw [if_pos hm] at hc
    simp at hc
    subst hc
    decide
  · rw [if_neg hm, List.mem_reverse] at hc
    obtain ⟨d, hd, rfl⟩ := List.mem_map.mp hc
    exact digitChar_ne_dash d (Nat.digits_lt_base (by norm_num) hd)

/-- Printing a natural number and parsing it back is the identity. -/
theorem parseNatChars_natDigitChars (m : Nat) :
    parseNatChars (natDigitChars m) = some m := by
  by_cases hm : m = 0
  · subst hm
    decide
  · rw [natDigitChars, if_neg hm, parseNatChars,
      if_neg (by simp [Nat.digits_ne_nil_iff_ne_zero.mpr hm]),
      show ((Nat.digits 10 m).map Nat.digitChar).reverse
          = ((Nat.digits 10 m).reverse).map Nat.digitChar from by
        rw [List.map_reverse],
      mapM_charDigit_map_digitChar _ (fun d hd =>
        Nat.digits_lt_base (by norm_num) (List.mem_reverse.mp hd))]
    simp [Nat.ofDigits_digits]

theorem pyInt_dash_cons (cs : List Char) :
    pyInt ⟨'-' :: cs⟩ = (parseNatChars cs).map fun m => -(m : Int) := rfl

theorem pyInt_cons_not_dash {c : Char} (hc : c ≠ '-') (cs : List Char) :
    pyInt ⟨c :: cs⟩ = (parseNatChars (c :: cs)).map fun m => (m : Int) := by
  unfold pyInt
  split
  · rename_i rest heq
    exfalso
    apply hc
    have h2 : c :: cs = '-' :: rest := heq
    injection h2 with h3 _
  · rfl

/-- Python `int(str(n)) == n` for every integer `n`. -/
theorem pyInt_pyStrInt (n : Int) : pyInt (pyStrInt n) = some n := by
  by_cases hn : n < 0
  · rw [pyStrInt, if_pos hn, pyInt_dash_cons, parseNatChars_natDigitChars]
    show some (-(n.natAbs : Int)) = some n
    rw [Option.some_inj]
    omega
  · rw [pyStrInt, if_neg hn]
    obtain ⟨c, cs, hccs⟩ : ∃ c cs, natDigitChars n.natAbs = c :: cs := by
      cases hx : natDigitChars n.natAbs with
      | nil => exact absurd hx (natDigitChars_ne_nil _)
      | cons c cs => exact ⟨c, cs, rfl⟩
    rw [hccs, pyInt_cons_not_dash
        (natDigitChars_ne_dash n.natAbs c (by rw [hccs]; simp)) cs,
      ← hccs, parseNatChars_natDigitChars]
    show some ((n.natAbs : Nat) : Int) = some n
    rw [Option.some_inj]
    omega

/-! ## `mapM` over `Except` -/

theorem mapM_map_ok {α β γ ε : Type} (f : α → β) (g : β → Except ε γ) (k : α → γ) :
    ∀ L : List α, (∀ x ∈ L, g (f x) = .ok (k x)) →
      (L.map f).mapM g = .ok (L.map k)
  | [], _ => rfl
  | a :: L, h => by
    rw [List.map_cons, List.mapM_cons, h a (by simp),
      mapM_map_ok f g k L (fun x hx => h x (by simp [hx]))]
    rfl

theorem mapM_ok_of_forall_ok {α β ε : Type} (f : α → Except ε β) (g : α → β) :
    ∀ L : List α, (∀ x ∈ L, f x = .ok (g x)) → L.mapM f = .ok (L.map g)
  | [], _ => rfl
  | a :: L, h => by
    rw [List.mapM_cons, h a (by simp),
      mapM_ok_of_forall_ok f g L (fun x hx => h x (by simp [hx]))]
    rfl

theorem mapM_error_of_exists_error {α β ε : Type} (f : α → Except ε β) :
    ∀ L : List α, (∃ x ∈ L, ∃ e, f x = .error e) →
      ∃ e, L.mapM f = .error e
  | [], h => absurd h (by simp)
  | a :: L, h => by
    rw [List.mapM_cons]
    cases hfa : f a with
    | error e => exact ⟨e, by rfl⟩
    | ok b =>
      obtain ⟨x, hx, e, hfx⟩ := h
      rcases List.mem_cons.mp hx with rfl | hx'
      · rw [hfa] at hfx
        cases hfx
      · obtain ⟨e2, he2⟩ := mapM_error_of_exists_error f L ⟨x, hx', e, hfx⟩
        exact ⟨e2, by rw [he2]; rfl⟩

/-- A record with a present but non-numeric `priority` or `status` text
fails to deserialise. -/
theorem taskOfElement_error_of_bad_field (te : TaskElement)
    (hbad : (∃ str, te.priorityText = some str ∧ pyInt str = none)
      ∨ (∃ str, te.statusText = some str ∧ pyInt str = none)) :
    ∃ e, taskOfElement te = .error e := by
  rcases hbad with ⟨str, hpt, hpi⟩ | ⟨str, hst, hpi⟩
  · refine ⟨.fieldValueError, ?_⟩
    unfold taskOfElement
    rw [show intOfField te.priorityText = .error .fieldValueError from by
      rw [hpt]
      simp [intOfField, hpi]]
  · cases hp : intOfField te.priorityText with
    | error e =>
      exact ⟨e, by unfold taskOfElement; rw [hp]⟩
    | ok p =>
      refine ⟨.fieldValueError, ?_⟩
      unfold taskOfElement
      rw [hp, show intOfField te.statusText = .error .fieldValueError from by
        rw [hst]
        simp [intOfField, hpi]]

/-- C4: `loadTasks` returns one task per record — with the deserialised
name/priority/status and default `index = 0` — when the file parses and
its records' numeric fields convert; it returns the single default task
when the file is missing or holds no task records (so a missing file never
raises); and malformed XML, or a present but non-numeric
`priority`/`status` field, is a fatal error with no partial result. -/
theorem loadTasks_spec :
    loadTasks .missing = .ok [defaultTask]
    ∧ loadTasks (.parsed []) = .ok [defaultTask]
    ∧ loadTasks .malformed = .error .xmlParseError
    ∧ (∀ tes : List TaskElement, tes ≠ [] →
        (∀ te ∈ tes, ∃ p st : Int,
          intOfField te.priorityText = .ok p ∧ intOfField te.statusText = .ok st) →
        loadTasks (.parsed tes)
          = .ok (tes.map fun te =>
              { name := te.nameText,
                priority := (intOfField te.priorityText).toOption.getD 0,
                status := (intOfField te.statusText).toOption.getD 0,
                index := 0 }))
    ∧ (∀ (tes : List TaskElement) (te : TaskElement), te ∈ tes →
        ((∃ str, te.priorityText = some str ∧ pyInt str = none)
          ∨ (∃ str, te.statusText = some str ∧ pyInt str = none)) →
        ∃ e, loadTasks (.parsed tes) = .error e) := by
  refine ⟨rfl, rfl, rfl, ?_, ?_⟩
  · intro tes hne hok
    rw [show loadTasks (.parsed tes)
        = if tes = [] then .ok [defaultTask] else tes.mapM taskOfElement from rfl,
      if_neg hne]
    apply mapM_ok_of_forall_ok
    intro te hte
    obtain ⟨p, st, hp, hst⟩ := hok te hte
    unfold taskOfElement
    rw [hp, hst]
    rfl
  · intro tes te hte hbad
    have hne : tes ≠ [] := List.ne_nil_of_mem hte
    obtain ⟨e, he⟩ := taskOfElement_error_of_bad_field te hbad
    obtain ⟨e2, he2⟩ := mapM_error_of_exists_error taskOfElement tes ⟨te, hte, e, he⟩
    refine ⟨e2, ?_⟩
    rw [show loadTasks (.parsed tes)
        = if tes = [] then .ok [defaultTask] else tes.mapM taskOfElement from rfl,
      if_neg hne]
    exact he2

/-- C4 witness: the theorem applied to two concrete parseable records (the
second lacking `name` and `index` children) and to a concrete record with
a non-numeric priority. -/
theorem loadTasks_spec_witness :
    loadTasks (.parsed goodElements)
      = .ok [{ name := some "t1", priority := 2, status := 0, index := 0 },
             { name := none, priority := -3, status := 2, index := 0 }]
    ∧ (∃ e, loadTasks (.parsed [badElement]) = .error e) := by
  constructor
  · have h := loadTasks_spec.2.2.2.1 goodElements (by decide) ?hok
    case hok =>
      intro te hte
      rcases List.mem_cons.mp hte with rfl | hte2
      · exact ⟨2, 0, rfl, rfl⟩
      rcases List.mem_cons.mp hte2 with rfl | hte3
      · exact ⟨-3, 2, rfl, rfl⟩
      · cases hte3
    rw [h]
    rfl
  · exact loadTasks_spec.2.2.2.2 [badElement] badElement (by simp)
      (Or.inl ⟨"high", rfl, by decide⟩)

/-- C5 counterexample: saving the empty task list writes a file with no
task records, and loading that file returns the single default task, not
the empty list — so the round trip does not reproduce every task list. -/
theorem saveLoad_roundTrip_counterexample :
    loadTasks (saveTasks []) = .ok [defaultTask]
    ∧ loadTasks (saveTasks ([] : List Task))
      ≠ .ok (([] : List Task).map fun t =>
          { name := t.name, priority := t.priority, status := t.status,
            index := 0 }) := by
  constructor
  · rfl
  · intro h
    cases h

/-- C5 (amended): for every NON-EMPTY task list whose names are strings
(not Python `None`), saving and re-loading reproduces each task's name,
priority and status in the same order, with `index` reset to `0` no matter
what it was at save time. -/
theorem saveLoad_roundTrip (ts : List Task) (hne : ts ≠ [])
    (hnames : ∀ t ∈ ts, ∃ str, t.name = some str) :
    loadTasks (saveTasks ts)
      = .ok (ts.map fun t =>
          { name := t.name, priority := t.priority, status := t.status,
            index := 0 }) := by
  rw [show loadTasks (saveTasks ts)
      = if ts.map serializeTask = [] then .ok [defaultTask]
        else (ts.map serializeTask).mapM taskOfElement from rfl,
    if_neg (by simpa using hne)]
  apply mapM_map_ok
  intro t ht
  obtain ⟨str, hstr⟩ := hnames t ht
  simp only [serializeTask, taskOfElement, intOfField, pyInt_pyStrInt, hstr, pyStrName]

/-- C5 witness: the amended round trip applied to two concrete tasks with
negative, zero and stale-index field values. -/
theorem saveLoad_roundTrip_witness :
    roundTripTasks ≠ []
    ∧ loadTasks (saveTasks roundTripTasks)
      = .ok [{ name := some "alpha", priority := -4, status := 2, index := 0 },
             { name := some "", priority := 0, status := 1, index := 0 }] := by
  refine ⟨by decide, ?_⟩
  have h := saveLoad_roundTrip roundTripTasks (by decide) ?names
  case names =>
    intro t ht
    rcases List.mem_cons.mp ht with rfl | ht2
    · exact ⟨"alpha", rfl⟩
    rcases List.mem_cons.mp ht2 with rfl | ht3
    · exact ⟨"", rfl⟩
    · cases ht3
  rw [h]
  rfl

end ToDo
